import Mathlib

/-!
Verification of the Form D ingestion pipeline (`form_d_ingest.py`) of the
nexthor-api repository.  The Python functions are shallowly embedded as
executable Lean definitions: dictionaries become structures with `Option`
fields where a key or value may be absent, the SQLAlchemy session becomes an
explicit list of staged/committed `Filing` rows, HTTP traffic becomes an
explicit `World` of responses keyed by URL, and Python exceptions become
`Except PyErr`.
-/

namespace FormD

/-- A calendar date, the value produced by `datetime.datetime.strptime(s, "%Y-%m-%d").date()`. -/
structure Date where
  year : Nat
  month : Nat
  day : Nat
deriving DecidableEq, Repr

/-- Day count of a month, as validated by `datetime.date` (proleptic Gregorian). -/
def daysInMonth (y m : Nat) : Nat :=
  if m = 2 then
    (if y % 4 = 0 ∧ (y % 100 ≠ 0 ∨ y % 400 = 0) then 29 else 28)
  else if m = 4 ∨ m = 6 ∨ m = 9 ∨ m = 11 then 30
  else 31

/-- Splitting on a single separator character, the behaviour of Python
`str.split(sep)` (and of `str.splitOn` for a one-character separator):
`"a|b" ↦ ["a", "b"]`, with empty pieces kept. -/
def splitOnChar (sep : Char) : List Char → List (List Char)
  | [] => [[]]
  | c :: rest =>
    let r := splitOnChar sep rest
    if c = sep then [] :: r
    else
      match r with
      | [] => [[c]]
      | g :: gs => (c :: g) :: gs

/-- The characters Python `str.strip()` removes at either end (ASCII range). -/
def isPySpace (c : Char) : Bool :=
  c = ' ' ∨ c = '\t' ∨ c = '\n' ∨ c = '\r' ∨ c = '\x0b' ∨ c = '\x0c'

/-- Python `str.strip()` on the character list. -/
def trimChars (cs : List Char) : List Char :=
  ((cs.dropWhile isPySpace).reverse.dropWhile isPySpace).reverse

/-- Python `str.strip()`. -/
def pyStrip (s : String) : String :=
  String.mk (trimChars s.data)

/-- Boolean list-prefix test. -/
def isPrefixList : List Char → List Char → Bool
  | [], _ => true
  | _ :: _, [] => false
  | a :: as, b :: bs => a = b && isPrefixList as bs

/-- Numeric value of a digit string, the behaviour of `int()` on the digit
groups the date regex captured. -/
def digitsToNat (cs : List Char) : Nat :=
  cs.foldl (fun n c => n * 10 + (c.toNat - '0'.toNat)) 0

/-- Embeds `datetime.datetime.strptime(s, "%Y-%m-%d")`: CPython matches the regex
`\d\d\d\d` `-` `(1[0-2]|0[1-9]|[1-9])` `-` `(3[01]|[12]\d|0[1-9]|[1-9])` against the
whole string (month and day may drop a leading zero) and then `datetime.date`
validates the day against the month length and requires year at least 1.
`none` models the `ValueError` raised on failure. -/
def parseYmd (s : String) : Option Date :=
  match splitOnChar '-' s.data with
  | [ys, ms, ds] =>
    if ys.length = 4 ∧ ys.all Char.isDigit ∧
       (ms.length = 1 ∨ ms.length = 2) ∧ ms.all Char.isDigit ∧
       (ds.length = 1 ∨ ds.length = 2) ∧ ds.all Char.isDigit then
      let y := digitsToNat ys
      let m := digitsToNat ms
      let d := digitsToNat ds
      if 1 ≤ y ∧ 1 ≤ m ∧ m ≤ 12 ∧ 1 ≤ d ∧ d ≤ daysInMonth y m then
        some ⟨y, m, d⟩
      else none
    else none
  | _ => none

/-- Python `str.zfill(width)`: left-pad with zeros, keeping a leading sign in place. -/
def zfill (width : Nat) (s : String) : String :=
  let (sign, body) :=
    match s.toList with
    | '+' :: rest => ("+", String.mk rest)
    | '-' :: rest => ("-", String.mk rest)
    | _ => ("", s)
  if s.length ≥ width then s
  else sign ++ String.mk (List.replicate (width - s.length) '0') ++ body

/-- Python `str.splitlines()` on the line endings occurring in this pipeline
(`\n`, `\r`, `\r\n`); a trailing line terminator produces no empty last line. -/
def splitlinesAux : List Char → List Char → List String
  | [], cur => if cur.isEmpty then [] else [String.mk cur.reverse]
  | '\r' :: '\n' :: rest, cur => String.mk cur.reverse :: splitlinesAux rest []
  | '\r' :: rest, cur => String.mk cur.reverse :: splitlinesAux rest []
  | '\n' :: rest, cur => String.mk cur.reverse :: splitlinesAux rest []
  | c :: rest, cur => splitlinesAux rest (c :: cur)

/-- See `splitlinesAux`. -/
def splitlines (s : String) : List String :=
  splitlinesAux s.toList []

/-- One transient index entry, the dict appended by `parse_index_lines`. -/
structure IndexEntry where
  cik : String
  company_name : String
  filing_date : String
  accession : String
  filename : String
  raw_xml_url : String
deriving DecidableEq, Repr

/-- Embeds `[p.strip() for p in line.split('|') if p.strip()]`. -/
def splitFields (line : String) : List String :=
  (((splitOnChar '|' line.data).map (fun p => String.mk (trimChars p))).filter
    (fun p => p ≠ ""))

/-- The index of the last `/` in `cs` usable as the boundary between the two
trailing `(\S+)` groups: preceded and followed by at least one character. -/
def lastSlashIdx (cs : List Char) : Option Nat :=
  ((List.range cs.length).filter
    (fun i => cs.getD i ' ' = '/' ∧ 1 ≤ i ∧ i + 2 ≤ cs.length)).getLast?

/-- Embeds `re.match(r'Archives/edgar/data/(\d+)/(\S+)/(\S+)', filename)`, returning the
three capture groups.  `re.match` anchors at the start only; the greedy middle
group with backtracking lands on the last `/` of the maximal non-whitespace run
that still leaves a non-empty final group. -/
def pathMatch (filename : String) : Option (String × String × String) :=
  let cs := filename.data
  if isPrefixList "Archives/edgar/data/".data cs then
    let rest := cs.drop 20
    let digits := rest.takeWhile Char.isDigit
    if digits = [] then none
    else
      match rest.drop digits.length with
      | '/' :: r =>
        let w := r.takeWhile (fun c => ¬ c.isWhitespace)
        match lastSlashIdx w with
        | some i =>
          some (String.mk digits, String.mk (w.take i), String.mk (w.drop (i + 1)))
        | none => none
      | _ => none
  else none

/-- Body of `parse_index_lines`'s per-line loop: a line yields an entry exactly
when it has five non-empty pipe-separated fields, the third equals `'D'`, and
the fifth matches the path regex. -/
def parsePartsD (parts : List String) : Option IndexEntry :=
  match parts with
  | [p0, p1, p2, p3, p4] =>
    if p2 = "D" then
      match pathMatch p4 with
      | some (_, accession, primary_doc) =>
        some { cik := zfill 10 p0
               company_name := p1
               filing_date := p3
               accession := accession
               filename := primary_doc
               raw_xml_url := "https://www.sec.gov/" ++ p4 }
      | none => none
    else none
  | _ => none

/-- One line of `parse_index_lines`. -/
def parseIdxLine (line : String) : Option IndexEntry :=
  parsePartsD (splitFields line)

/-- Embeds `parse_index_lines(lines)`: skip the 11 header lines, keep the per-line hits. -/
def parse_index_lines (lines : List String) : List IndexEntry :=
  (lines.drop 11).filterMap parseIdxLine

/-- An XML element tree, the result of `xml.etree.ElementTree.fromstring`.
`text` is `none` when the element carries no text node (ElementTree's `None`). -/
inductive Element where
  | mk (tag : String) (text : Option String) (children : List Element)

/-- Tag of an element. -/
def Element.tag : Element → String
  | .mk t _ _ => t

/-- Text of an element. -/
def Element.text : Element → Option String
  | .mk _ tx _ => tx

/-- Children of an element. -/
def Element.children : Element → List Element
  | .mk _ _ cs => cs

/-- The fully-qualified tag ElementTree compares against for a `d:`-prefixed
name under `NS = {'d': 'http://www.sec.gov/edgar/formd'}`. -/
def nsTag (n : String) : String :=
  "\x7bhttp://www.sec.gov/edgar/formd\x7d" ++ n

mutual

/-- Preorder search of an element and its descendants for a tag. -/
def findSelfOrDesc : Element → String → Option Element
  | .mk tag tx cs, t =>
    if tag = t then some (.mk tag tx cs) else findChildList cs t

/-- Preorder search of a forest for a tag. -/
def findChildList : List Element → String → Option Element
  | [], _ => none
  | e :: es, t =>
    match findSelfOrDesc e t with
    | some r => some r
    | none => findChildList es t

end

/-- Embeds `root.find('.//d:' + n, NS)`: first matching descendant of `root` in
document order (the root itself is not a candidate). -/
def findDesc (root : Element) (n : String) : Option Element :=
  findChildList root.children (nsTag n)

/-- A Python exception escaping `parse_form_d_xml` (only `ET.ParseError` is
caught there). -/
inductive PyErr where
  | typeError
  | valueError
deriving DecidableEq, Repr

/-- The dict returned by a successful `parse_form_d_xml`. -/
structure ParsedDoc where
  filing_date : Option Date
  company_name : String
  raise_amount : String
  raw_xml_url : String
deriving DecidableEq, Repr

/-- Lines 82–84 of `form_d_ingest.py`:
`date_str = accept_elem.text[:10] if accept_elem is not None else None` and
`strptime(date_str, '%Y-%m-%d').date() if date_str else None`.
Slicing `None` raises `TypeError`; an empty `date_str` is falsy so `strptime`
is skipped; a failing `strptime` raises `ValueError`.  Neither error is caught. -/
def acceptanceDate (root : Element) : Except PyErr (Option Date) :=
  match findDesc root "acceptanceDateTime" with
  | none => .ok none
  | some el =>
    match el.text with
    | none => .error .typeError
    | some t =>
      let date_str := t.take 10
      if date_str = "" then .ok none
      else
        match parseYmd date_str with
        | some d => .ok (some d)
        | none => .error .valueError

/-- Embeds `elem.text.strip() if elem is not None else ''` for a `d:`-tag; a present
element whose text is `None` raises `TypeError` (uncaught). -/
def elemText (root : Element) (n : String) : Except PyErr String :=
  match findDesc root n with
  | none => .ok ""
  | some el =>
    match el.text with
    | none => .error .typeError
    | some t => .ok (pyStrip t)

/-- Embeds `parse_form_d_xml(xml_content, raw_url)`.  The argument is the result of
`ET.fromstring`: `none` stands for content that raises `ET.ParseError`, which
the function catches and turns into the empty dict (modelled `.ok none`).
Any other exception propagates. -/
def parse_form_d_xml (xml : Option Element) (raw_url : String) :
    Except PyErr (Option ParsedDoc) :=
  match xml with
  | none => .ok none
  | some root => do
    let fd ← acceptanceDate root
    let cn ← elemText root "companyName"
    let ra ← elemText root "minimumInvestment"
    pure (some { filing_date := fd, company_name := cn, raise_amount := ra,
                 raw_xml_url := raw_url })

/-- A stored row of the `filings` table (the autoincrement `id` is omitted;
rows are identified by position in the storage list). -/
structure Filing where
  cik : String
  company_name : String
  raise_amount : String
  filing_date : Date
  processed : Bool
  raw_xml_url : String
  ai_score : Int
deriving DecidableEq, Repr

/-- The dict handed to `insert_if_new`.  `cik` and `filing_date` are the two
values the writer inspects; a missing key or a `None` value is `none`.  The
empty-dict parse result (`{}` plus the `cik` added by `download_and_parse_xml`)
is represented with `filing_date := none` and `""` for the remaining fields:
the writer rejects it on the missing date before reading them, so the defaults
are unobservable. -/
structure FilingData where
  cik : Option String
  filing_date : Option Date
  company_name : String
  raise_amount : String
  raw_xml_url : String
deriving DecidableEq, Repr

/-- Embeds `session.query(Filing).filter_by(cik=c, filing_date=dt).first()` viewed as
a presence check on the session's rows. -/
def hasKey (s : List Filing) (c : String) (dt : Date) : Bool :=
  s.any (fun f => decide (f.cik = c ∧ f.filing_date = dt))

/-- The `Filing(...)` row constructed by `insert_if_new`. -/
def newRow (c : String) (dt : Date) (d : FilingData) : Filing :=
  { cik := c
    company_name := d.company_name
    raise_amount := d.raise_amount
    filing_date := dt
    processed := false
    raw_xml_url := d.raw_xml_url
    ai_score := 0 }

/-- Embeds `insert_if_new(session, data)`: reject when `data.get('filing_date')` or
`data.get('cik')` is falsy (`None` or empty string); reject silently when a row
with the same `(cik, filing_date)` exists; otherwise stage one new `Filing`
with `processed=False` and `ai_score=0` and report `True`. -/
def insert_if_new (s : List Filing) (d : FilingData) : Bool × List Filing :=
  match d.filing_date, d.cik with
  | some dt, some c =>
    if c = "" then (false, s)
    else if hasKey s c dt then (false, s)
    else (true, s ++ [newRow c dt d])
  | _, _ => (false, s)

/-- The upstream web, fixed for a run: each URL maps to a status code and a
body.  For document URLs the body is given as the result of `ET.fromstring`
on the bytes (`none` = not well-formed XML). -/
structure World where
  idxResp : String → Nat × String
  docResp : String → Nat × Option Element

/-- The URL built inside `download_and_parse_xml`. -/
def docUrl (cik accession primary_doc : String) : String :=
  "https://www.sec.gov/Archives/edgar/data/" ++ cik ++ "/" ++ accession ++
    "/" ++ primary_doc

/-- Embeds `download_and_parse_xml(cik, accession, primary_doc)`: on HTTP 200 parse
the document and add the `cik` key; on any other status return `None`. -/
def download_and_parse_xml (w : World) (cik accession primary_doc : String) :
    Except PyErr (Option FilingData) :=
  let url := docUrl cik accession primary_doc
  let (status, xml) := w.docResp url
  if status = 200 then
    match parse_form_d_xml xml url with
    | .error e => .error e
    | .ok none =>
      .ok (some { cik := some cik, filing_date := none, company_name := "",
                  raise_amount := "", raw_xml_url := "" })
    | .ok (some p) =>
      .ok (some { cik := some cik, filing_date := p.filing_date,
                  company_name := p.company_name,
                  raise_amount := p.raise_amount,
                  raw_xml_url := p.raw_xml_url })
  else .ok none

/-- Observables of one `process_daily` call: the session's rows afterwards,
the boolean returned by each `insert_if_new` call in order, and the document
URLs fetched in order. -/
structure DailyRun where
  storage : List Filing
  attempts : List Bool
  fetched : List String
deriving DecidableEq, Repr

/-- The `for entry in entries` loop of `process_daily`: fetch and parse each
entry's document, attempt an insert when the result dict is truthy, and let
any uncaught exception propagate (the `time.sleep` throttle has no effect on
these observables). -/
def dailyLoop (w : World) : List IndexEntry → List Filing → Except PyErr DailyRun
  | [], s => .ok ⟨s, [], []⟩
  | e :: es, s =>
    let url := docUrl e.cik e.accession e.filename
    match download_and_parse_xml w e.cik e.accession e.filename with
    | .error err => .error err
    | .ok none =>
      match dailyLoop w es s with
      | .error err => .error err
      | .ok r => .ok ⟨r.storage, r.attempts, url :: r.fetched⟩
    | .ok (some d) =>
      let (b, s') := insert_if_new s d
      match dailyLoop w es s' with
      | .error err => .error err
      | .ok r => .ok ⟨r.storage, b :: r.attempts, url :: r.fetched⟩

/-- Embeds `get_daily_idx_url(year, quarter, date_str)`. -/
def get_daily_idx_url (year quarter : Nat) (date_str : String) : String :=
  "https://www.sec.gov/Archives/edgar/daily-index/" ++ toString year ++
    "/QTR" ++ toString quarter ++ "/" ++ date_str ++ "/master." ++ date_str ++
    ".idx"

/-- Embeds `process_daily(session, year, quarter, date_str)`: on HTTP 200 split the
body into lines, parse the index and run the entry loop; on any other status
log and do nothing.  There is no inspection of the body beyond line splitting,
so a markup body with status 200 takes the success path. -/
def process_daily (w : World) (s : List Filing) (year quarter : Nat)
    (date_str : String) : Except PyErr DailyRun :=
  let (status, body) := w.idxResp (get_daily_idx_url year quarter date_str)
  if status = 200 then
    dailyLoop w (parse_index_lines (splitlines body)) s
  else .ok ⟨s, [], []⟩

/-- The date loop inside `historical_90days`, threading the session's rows;
the first uncaught exception aborts the remaining dates. -/
def runDays (w : World) : List (Nat × Nat × String) → List Filing →
    Except PyErr (List Filing)
  | [], s => .ok s
  | (y, q, d) :: rest, s =>
    match process_daily w s y q d with
    | .error e => .error e
    | .ok r => runDays w rest r.storage

/-- Embeds `historical_90days` with its date list made explicit (the source computes
the last-90-days window from `date.today()`).  One session spans the whole
window: a single `session.commit()` after the loop makes all staged rows
durable, and the `except` branch's `session.rollback()` discards every staged
row, leaving the pre-run storage. -/
def historical_run (w : World) (s0 : List Filing)
    (dates : List (Nat × Nat × String)) : List Filing :=
  match runDays w dates s0 with
  | .ok s => s
  | .error _ => s0

/-- One storage-touching operation of the writer/orchestrator layer:
a bare `insert_if_new` call, a `daily_update`-style single-date run (own
session, commit on success, rollback on an uncaught exception), or a
`historical_90days`-style backfill. -/
inductive StoreOp where
  | write (d : FilingData)
  | daily (w : World) (year quarter : Nat) (date_str : String)
  | backfill (w : World) (dates : List (Nat × Nat × String))

/-- Effect of one operation on durable storage. -/
def applyOp (s : List Filing) : StoreOp → List Filing
  | .write d => (insert_if_new s d).2
  | .daily w y q ds =>
    match process_daily w s y q ds with
    | .ok r => r.storage
    | .error _ => s
  | .backfill w dates => historical_run w s dates

/-- The storage invariant: no two rows share both `cik` and `filing_date`. -/
def UniqueStore (s : List Filing) : Prop :=
  s.Pairwise (fun a b => ¬ (a.cik = b.cik ∧ a.filing_date = b.filing_date))

/-! ### Concrete fixtures used by witnesses and counterexamples -/

/-- Eleven dummy header lines, the part `parse_index_lines` skips. -/
def hdr11 : List String := List.replicate 11 "header"

/-- An index body: 11 header lines followed by the given data lines. -/
def idxBody (dataLines : List String) : String :=
  String.intercalate "\n" (hdr11 ++ dataLines)

/-- The spec's end-to-end example index line (layout-(a) path). -/
def exampleLine : String :=
  "0001234567|Example Corp|D|20240115|edgar/data/1234567/0001437749-24-001122/primary_doc.xml"

/-- The same line with the `Archives/` prefix the source regex requires. -/
def archivesLine : String :=
  "1234567|Example Corp|D|20240115|Archives/edgar/data/1234567/0001437749-24-001122/primary_doc.xml"

/-- The example line with the amendment filing-type code `D/A`. -/
def amendmentLine : String :=
  "1234567|Example Corp|D/A|20240115|Archives/edgar/data/1234567/0001437749-24-001122/primary_doc.xml"

/-- A well-formed filing document with acceptance timestamp, company name and
minimum investment. -/
def goodDoc : Element :=
  .mk "root" none
    [ .mk (nsTag "acceptanceDateTime") (some "2024-01-15T10:00:00") []
    , .mk (nsTag "companyName") (some "Example Corp") []
    , .mk (nsTag "minimumInvestment") (some "5000000") [] ]

/-- A well-formed document whose only amount field is `totalOfferingAmount`. -/
def totalOnlyDoc : Element :=
  .mk "root" none
    [ .mk (nsTag "acceptanceDateTime") (some "2024-01-15T10:00:00") []
    , .mk (nsTag "companyName") (some "Example Corp") []
    , .mk (nsTag "totalOfferingAmount") (some "5000000") [] ]

/-- A well-formed document lacking the acceptance timestamp. -/
def noAcceptDoc : Element :=
  .mk "root" none
    [ .mk (nsTag "companyName") (some "Example Corp") []
    , .mk (nsTag "minimumInvestment") (some "5000000") [] ]

/-- A well-formed document whose `acceptanceDateTime` element is empty
(ElementTree gives such an element `text = None`). -/
def emptyAcceptDoc : Element :=
  .mk "root" none
    [ .mk (nsTag "acceptanceDateTime") none [] ]

/-- A well-formed document whose acceptance timestamp does not start with a
valid `YYYY-MM-DD` date. -/
def badDateDoc : Element :=
  .mk "root" none
    [ .mk (nsTag "acceptanceDateTime") (some "garbage timestamp") []
    , .mk (nsTag "companyName") (some "Example Corp") []
    , .mk (nsTag "minimumInvestment") (some "5000000") [] ]

/-- A world whose every index fetch returns the given response and whose every
document fetch returns the given parsed document. -/
def constWorld (idx : Nat × String) (doc : Nat × Option Element) : World :=
  { idxResp := fun _ => idx, docResp := fun _ => doc }

/-- World for the happy-path run: one matching index line, documents parse. -/
def cw : World := constWorld (200, idxBody [archivesLine]) (200, some goodDoc)

/-- The row the happy-path run stores. -/
def exampleFiling : Filing :=
  { cik := "0001234567", company_name := "Example Corp",
    raise_amount := "5000000", filing_date := ⟨2024, 1, 15⟩,
    processed := false,
    raw_xml_url := docUrl "0001234567" "0001437749-24-001122" "primary_doc.xml",
    ai_score := 0 }

/-- World whose index fetch returns an HTML block page with status 200. -/
def wHtml : World :=
  constWorld (200, "<html><body>Request Rate Threshold Exceeded</body></html>")
    (404, none)

/-- World for a day with an index that lists no filings. -/
def wEmpty : World := constWorld (200, idxBody []) (404, none)

/-- World where the single entry's document lacks the acceptance timestamp. -/
def w6 : World := constWorld (200, idxBody [archivesLine]) (200, some noAcceptDoc)

/-- World where the single entry's document has an empty acceptance element,
so the date slice raises `TypeError`. -/
def w10 : World := constWorld (200, idxBody [archivesLine]) (200, some emptyAcceptDoc)

/-- An index line for registrant `c` (layout the source regex accepts). -/
def lineFor (c : String) : String :=
  c ++ "|Example Corp|D|20240115|Archives/edgar/data/" ++ c ++ "/acc-1/doc.xml"

/-- The five backfill dates of the resilience scenario. -/
def dates5 : List (Nat × Nat × String) :=
  [ (2024, 1, "20240111"), (2024, 1, "20240112"), (2024, 1, "20240113"),
    (2024, 1, "20240114"), (2024, 1, "20240115") ]

/-- World for the backfill scenario: each date's index lists one registrant
(`1`‥`5` keyed by date), every document parses except registrant 3's, whose
empty acceptance element raises inside the run for date 3. -/
def w8 : World :=
  { idxResp := fun u =>
      if u = get_daily_idx_url 2024 1 "20240111" then (200, idxBody [lineFor "1"])
      else if u = get_daily_idx_url 2024 1 "20240112" then (200, idxBody [lineFor "2"])
      else if u = get_daily_idx_url 2024 1 "20240113" then (200, idxBody [lineFor "3"])
      else if u = get_daily_idx_url 2024 1 "20240114" then (200, idxBody [lineFor "4"])
      else if u = get_daily_idx_url 2024 1 "20240115" then (200, idxBody [lineFor "5"])
      else (404, "")
    docResp := fun u =>
      if u = docUrl "0000000003" "acc-1" "doc.xml" then (200, some emptyAcceptDoc)
      else (200, some goodDoc) }

/-- A concrete fresh record used by witnesses. -/
def freshData : FilingData :=
  { cik := some "42", filing_date := some ⟨2024, 1, 16⟩,
    company_name := "X", raise_amount := "1", raw_xml_url := "u" }

/-- The row the backfill scenario would store for registrant `c`. -/
def filingFor (c : String) : Filing :=
  { cik := zfill 10 c, company_name := "Example Corp",
    raise_amount := "5000000", filing_date := ⟨2024, 1, 15⟩,
    processed := false, raw_xml_url := docUrl (zfill 10 c) "acc-1" "doc.xml",
    ai_score := 0 }

/-! ### Lemmas about the writer -/

theorem insert_if_new_none (s : List Filing) (d : FilingData)
    (h : d.filing_date = none ∨ d.cik = none) : insert_if_new s d = (false, s) := by
  rcases h with h | h
  · simp [insert_if_new, h]
  · cases hfd : d.filing_date <;> simp [insert_if_new, hfd, h]

theorem insert_if_new_some (s : List Filing) (d : FilingData) {c : String}
    {dt : Date} (hc : d.cik = some c) (hd : d.filing_date = some dt) :
    insert_if_new s d =
      if c = "" then (false, s)
      else if hasKey s c dt then (false, s)
      else (true, s ++ [newRow c dt d]) := by
  simp [insert_if_new, hc, hd]

theorem insert_grow (s : List Filing) (d : FilingData) :
    ∃ t, (insert_if_new s d).2 = s ++ t := by
  cases hfd : d.filing_date with
  | none => exact ⟨[], by simp [insert_if_new_none s d (Or.inl hfd)]⟩
  | some dt =>
    cases hc : d.cik with
    | none => exact ⟨[], by simp [insert_if_new_none s d (Or.inr hc)]⟩
    | some c =>
      rw [insert_if_new_some s d hc hfd]
      by_cases h1 : c = ""
      · exact ⟨[], by simp [h1]⟩
      by_cases h2 : hasKey s c dt
      · exact ⟨[], by simp [h1, h2]⟩
      · exact ⟨[newRow c dt d], by simp [h1, h2]⟩

theorem hasKey_append_left {s : List Filing} {c : String} {dt : Date}
    (t : List Filing) (h : hasKey s c dt = true) :
    hasKey (s ++ t) c dt = true := by
  simp only [hasKey, List.any_append, Bool.or_eq_true]
  exact Or.inl h

theorem insert_hasKey (s : List Filing) (d : FilingData) {c : String}
    {dt : Date} (hc : d.cik = some c) (hne : c ≠ "")
    (hd : d.filing_date = some dt) :
    hasKey (insert_if_new s d).2 c dt = true := by
  rw [insert_if_new_some s d hc hd]
  by_cases h2 : hasKey s c dt
  · simp [hne, h2]
  · rw [if_neg hne, if_neg h2]
    simp only [hasKey, List.any_append, Bool.or_eq_true]
    right
    simp [newRow]

theorem insert_false_of_hasKey (s : List Filing) (d : FilingData) {c : String}
    {dt : Date} (hc : d.cik = some c) (hd : d.filing_date = some dt)
    (h : hasKey s c dt = true) : insert_if_new s d = (false, s) := by
  rw [insert_if_new_some s d hc hd]
  by_cases h1 : c = "" <;> simp [h1, h]

theorem insert_preserves_unique (s : List Filing) (d : FilingData)
    (hu : UniqueStore s) : UniqueStore (insert_if_new s d).2 := by
  cases hfd : d.filing_date with
  | none => rw [insert_if_new_none s d (Or.inl hfd)]; exact hu
  | some dt =>
    cases hc : d.cik with
    | none => rw [insert_if_new_none s d (Or.inr hc)]; exact hu
    | some c =>
      rw [insert_if_new_some s d hc hfd]
      by_cases h1 : c = ""
      · simpa [h1] using hu
      by_cases h2 : hasKey s c dt
      · simpa [h1, h2] using hu
      · rw [if_neg h1, if_neg h2]
        simp only [UniqueStore, List.pairwise_append]
        refine ⟨hu, List.pairwise_singleton _ _, ?_⟩
        intro a ha b hb
        simp only [List.mem_singleton] at hb
        subst hb
        intro hab
        have : hasKey s c dt = true := by
          simp only [hasKey, List.any_eq_true]
          exact ⟨a, ha, by simp [newRow] at hab; simp [hab.1, hab.2]⟩
        exact h2 this

/-! ### Lemmas about the per-date entry loop -/

theorem dailyLoop_grow (w : World) : ∀ (es : List IndexEntry) (s : List Filing)
    (r : DailyRun), dailyLoop w es s = .ok r → ∃ t, r.storage = s ++ t := by
  intro es
  induction es with
  | nil =>
    intro s r h
    simp only [dailyLoop, Except.ok.injEq] at h
    exact ⟨[], by simp [← h]⟩
  | cons e es ih =>
    intro s r h
    rw [dailyLoop] at h
    split at h
    · exact absurd h (by simp)
    · rename_i o hdl
      split at h
      · exact absurd h (by simp)
      · rename_i r' htl
        simp only [Except.ok.injEq] at h
        obtain ⟨t, ht⟩ := ih _ r' htl
        exact ⟨t, by rw [← h]; exact ht⟩
    · rename_i o d hdl
      split at h
      rename_i b s' hins
      split at h
      · exact absurd h (by simp)
      · rename_i r' htl
        simp only [Except.ok.injEq] at h
        obtain ⟨t, ht⟩ := ih _ r' htl
        obtain ⟨t0, ht0⟩ := insert_grow s d
        have hs' : s' = s ++ t0 := by rw [hins] at ht0; exact ht0
        refine ⟨t0 ++ t, ?_⟩
        rw [← h]
        simp only [ht, hs', List.append_assoc]

theorem dailyLoop_unique (w : World) : ∀ (es : List IndexEntry)
    (s : List Filing) (r : DailyRun), UniqueStore s →
    dailyLoop w es s = .ok r → UniqueStore r.storage := by
  intro es
  induction es with
  | nil =>
    intro s r hu h
    simp only [dailyLoop, Except.ok.injEq] at h
    rw [← h]
    exact hu
  | cons e es ih =>
    intro s r hu h
    rw [dailyLoop] at h
    split at h
    · exact absurd h (by simp)
    · rename_i o hdl
      split at h
      · exact absurd h (by simp)
      · rename_i r' htl
        simp only [Except.ok.injEq] at h
        rw [← h]
        exact ih _ r' hu htl
    · rename_i o d hdl
      split at h
      rename_i b s' hins
      split at h
      · exact absurd h (by simp)
      · rename_i r' htl
        simp only [Except.ok.injEq] at h
        rw [← h]
        have hu' : UniqueStore s' := by
          have := insert_preserves_unique s d hu
          rwa [hins] at this
        exact ih _ r' hu' htl

theorem dailyLoop_hasKey (w : World) : ∀ (es : List IndexEntry)
    (s : List Filing) (r : DailyRun), dailyLoop w es s = .ok r →
    ∀ e ∈ es, ∀ (d : FilingData) (c : String) (dt : Date),
      download_and_parse_xml w e.cik e.accession e.filename = .ok (some d) →
      d.cik = some c → c ≠ "" → d.filing_date = some dt →
      hasKey r.storage c dt = true := by
  intro es
  induction es with
  | nil => intro s r _ e he; exact absurd he (by simp)
  | cons e0 es ih =>
    intro s r h e he d c dt hdl hc hne hfd
    rw [dailyLoop] at h
    rcases List.mem_cons.mp he with he | he
    · subst he
      split at h
      · exact absurd h (by simp)
      · rename_i o hdl0
        rw [hdl] at hdl0
        exact absurd hdl0 (by simp)
      · rename_i o d0 hdl0
        rw [hdl] at hdl0
        simp only [Except.ok.injEq, Option.some.injEq] at hdl0
        subst hdl0
        split at h
        rename_i b s' hins
        split at h
        · exact absurd h (by simp)
        · rename_i r' htl
          simp only [Except.ok.injEq] at h
          rw [← h]
          obtain ⟨t, ht⟩ := dailyLoop_grow w es s' r' htl
          have hk : hasKey s' c dt = true := by
            have := insert_hasKey s d hc hne hfd
            rwa [hins] at this
          simpa [ht] using hasKey_append_left t hk
    · split at h
      · exact absurd h (by simp)
      · rename_i o hdl0
        split at h
        · exact absurd h (by simp)
        · rename_i r' htl
          simp only [Except.ok.injEq] at h
          rw [← h]
          exact ih _ r' htl e he d c dt hdl hc hne hfd
      · rename_i o d0 hdl0
        split at h
        rename_i b s' hins
        split at h
        · exact absurd h (by simp)
        · rename_i r' htl
          simp only [Except.ok.injEq] at h
          rw [← h]
          exact ih _ r' htl e he d c dt hdl hc hne hfd

theorem dailyLoop_ok_downloads (w : World) : ∀ (es : List IndexEntry)
    (s : List Filing) (r : DailyRun), dailyLoop w es s = .ok r →
    ∀ e ∈ es, ∃ o, download_and_parse_xml w e.cik e.accession e.filename = .ok o := by
  intro es
  induction es with
  | nil => intro s r _ e he; exact absurd he (by simp)
  | cons e0 es ih =>
    intro s r h e he
    rw [dailyLoop] at h
    rcases List.mem_cons.mp he with he | he
    · subst he
      split at h
      · exact absurd h (by simp)
      · rename_i o hdl0
        exact ⟨none, hdl0⟩
      · rename_i o d0 hdl0
        exact ⟨some d0, hdl0⟩
    · split at h
      · exact absurd h (by simp)
      · rename_i o hdl0
        split at h
        · exact absurd h (by simp)
        · rename_i r' htl
          exact ih _ r' htl e he
      · rename_i o d0 hdl0
        split at h
        rename_i b s' hins
        split at h
        · exact absurd h (by simp)
        · rename_i r' htl
          exact ih _ r' htl e he

theorem dailyLoop_second (w : World) : ∀ (es : List IndexEntry)
    (S : List Filing),
    (∀ e ∈ es, ∃ o, download_and_parse_xml w e.cik e.accession e.filename = .ok o) →
    (∀ e ∈ es, ∀ d, download_and_parse_xml w e.cik e.accession e.filename = .ok (some d) →
      insert_if_new S d = (false, S)) →
    ∃ r, dailyLoop w es S = .ok r ∧ r.storage = S ∧ ∀ b ∈ r.attempts, b = false := by
  intro es
  induction es with
  | nil =>
    intro S _ _
    exact ⟨⟨S, [], []⟩, by simp [dailyLoop]⟩
  | cons e0 es ih =>
    intro S h1 h2
    obtain ⟨o, ho⟩ := h1 e0 (List.mem_cons_self e0 es)
    obtain ⟨r, hr, hS, hb⟩ := ih S
      (fun e he => h1 e (List.mem_cons_of_mem e0 he))
      (fun e he d hd => h2 e (List.mem_cons_of_mem e0 he) d hd)
    cases o with
    | none =>
      refine ⟨⟨r.storage, r.attempts,
        docUrl e0.cik e0.accession e0.filename :: r.fetched⟩, ?_, hS, hb⟩
      simp only [dailyLoop, ho, hr]
    | some d =>
      have hins := h2 e0 (List.mem_cons_self e0 es) d ho
      refine ⟨⟨r.storage, false :: r.attempts,
        docUrl e0.cik e0.accession e0.filename :: r.fetched⟩, ?_, hS, ?_⟩
      · simp only [dailyLoop, ho, hins, hr]
      · intro b hbm
        rcases List.mem_cons.mp hbm with hbm | hbm
        · exact hbm
        · exact hb b hbm

/-! ### Lemmas about `process_daily`, `runDays` and the operation semantics -/

theorem process_daily_200 {w : World} {y q : Nat} {ds body : String}
    (h : w.idxResp (get_daily_idx_url y q ds) = (200, body)) (s : List Filing) :
    process_daily w s y q ds = dailyLoop w (parse_index_lines (splitlines body)) s := by
  simp [process_daily, h]

theorem process_daily_not200 {w : World} {y q : Nat} {ds body : String}
    {st : Nat} (h : w.idxResp (get_daily_idx_url y q ds) = (st, body))
    (hst : st ≠ 200) (s : List Filing) :
    process_daily w s y q ds = .ok ⟨s, [], []⟩ := by
  simp only [process_daily, h, if_neg hst]

theorem process_daily_unique {w : World} {s : List Filing} {y q : Nat}
    {ds : String} {r : DailyRun} (hu : UniqueStore s)
    (h : process_daily w s y q ds = .ok r) : UniqueStore r.storage := by
  cases hresp : w.idxResp (get_daily_idx_url y q ds) with
  | mk st body =>
    by_cases hst : st = 200
    · subst hst
      rw [process_daily_200 hresp s] at h
      exact dailyLoop_unique w _ s r hu h
    · rw [process_daily_not200 hresp hst s] at h
      simp only [Except.ok.injEq] at h
      rw [← h]
      exact hu

theorem process_daily_grow {w : World} {s : List Filing} {y q : Nat}
    {ds : String} {r : DailyRun} (h : process_daily w s y q ds = .ok r) :
    ∃ t, r.storage = s ++ t := by
  cases hresp : w.idxResp (get_daily_idx_url y q ds) with
  | mk st body =>
    by_cases hst : st = 200
    · subst hst
      rw [process_daily_200 hresp s] at h
      exact dailyLoop_grow w _ s r h
    · rw [process_daily_not200 hresp hst s] at h
      simp only [Except.ok.injEq] at h
      exact ⟨[], by simp [← h]⟩

theorem runDays_unique (w : World) : ∀ (dates : List (Nat × Nat × String))
    (s s' : List Filing), UniqueStore s → runDays w dates s = .ok s' →
    UniqueStore s' := by
  intro dates
  induction dates with
  | nil =>
    intro s s' hu h
    simp only [runDays, Except.ok.injEq] at h
    rw [← h]
    exact hu
  | cons dk rest ih =>
    intro s s' hu h
    obtain ⟨y, q, ds⟩ := dk
    rw [runDays] at h
    split at h
    · exact absurd h (by simp)
    · rename_i r hpd
      exact ih r.storage s' (process_daily_unique hu hpd) h

theorem runDays_append (w : World) : ∀ (ds1 ds2 : List (Nat × Nat × String))
    (s : List Filing), runDays w (ds1 ++ ds2) s =
      match runDays w ds1 s with
      | .ok s1 => runDays w ds2 s1
      | .error e => .error e := by
  intro ds1
  induction ds1 with
  | nil => intro ds2 s; simp [runDays]
  | cons dk rest ih =>
    intro ds2 s
    obtain ⟨y, q, ds⟩ := dk
    rw [List.cons_append, runDays, runDays]
    cases hpd : process_daily w s y q ds with
    | error e => simp
    | ok r => exact ih ds2 r.storage

theorem applyOp_unique (s : List Filing) (op : StoreOp) (hu : UniqueStore s) :
    UniqueStore (applyOp s op) := by
  cases op with
  | write d => exact insert_preserves_unique s d hu
  | daily w y q ds =>
    rw [applyOp]
    cases hpd : process_daily w s y q ds with
    | error e => exact hu
    | ok r => exact process_daily_unique hu hpd
  | backfill w dates =>
    rw [applyOp, historical_run]
    cases hrd : runDays w dates s with
    | error e => exact hu
    | ok s' => exact runDays_unique w dates s s' hu hrd

/-! ### Claims -/

/-- Claim C1, counterexample: on the spec's own example index line (whose
fifth field is `edgar/data/...`), `parse_index_lines` produces no entry at
all, because the source regex `Archives/edgar/data/(\d+)/(\S+)/(\S+)` is
anchored at the start of the field and the field lacks the `Archives/`
prefix.  The claim asserts exactly one `IndexEntry` for this line. -/
theorem claim_C1_counterexample :
    parse_index_lines (hdr11 ++ [exampleLine]) = [] := by rfl

/-- Claim C1 as amended: for every index line with exactly five non-empty
pipe-separated fields whose filing-type field equals `D` and whose fifth
field matches the source's anchored pattern
`Archives/edgar/data/{digits}/{accession}/{primaryDocumentName}`,
`parse_index_lines` on any 11 header lines followed by that line produces
exactly one `IndexEntry`, with the cik zero-padded to 10 digits, the company
name, the compact filing-date string, and the accession and document-name
components extracted from the path. -/
theorem claim_C1_amended (line p0 p1 p3 p4 g a doc : String)
    (hsplit : splitFields line = [p0, p1, "D", p3, p4])
    (hpath : pathMatch p4 = some (g, a, doc))
    (headers : List String) (hlen : headers.length = 11) :
    parse_index_lines (headers ++ [line]) =
      [{ cik := zfill 10 p0, company_name := p1, filing_date := p3,
         accession := a, filename := doc,
         raw_xml_url := "https://www.sec.gov/" ++ p4 }] := by
  have hdrop : (headers ++ [line]).drop 11 = [line] := by
    rw [← hlen]
    exact List.drop_left headers [line]
  rw [parse_index_lines, hdrop]
  simp [List.filterMap, parseIdxLine, hsplit, parsePartsD, hpath]

/-- Witness for `claim_C1_amended`: the example line with the `Archives/`
prefix the regex demands yields exactly its entry. -/
theorem claim_C1_amended_witness :
    parse_index_lines (hdr11 ++ [archivesLine]) =
      [{ cik := zfill 10 "1234567", company_name := "Example Corp",
         filing_date := "20240115", accession := "0001437749-24-001122",
         filename := "primary_doc.xml",
         raw_xml_url := "https://www.sec.gov/" ++
           "Archives/edgar/data/1234567/0001437749-24-001122/primary_doc.xml" }] :=
  claim_C1_amended archivesLine "1234567" "Example Corp" "20240115"
    "Archives/edgar/data/1234567/0001437749-24-001122/primary_doc.xml"
    "1234567" "0001437749-24-001122" "primary_doc.xml" rfl rfl hdr11 rfl

/-- Claim C2 (confirmed): the deduplicating writer rejects a record whose
`cik` or `filing_date` is missing (Python falsiness: a `None` value, an
absent key, or an empty-string cik), staging nothing; rejects a record whose
`(cik, filing_date)` pair already has a stored row, staging nothing; and
otherwise stages exactly one new row carrying the parsed fields with
`processed = false` and `ai_score = 0`, reporting an insertion. -/
theorem claim_C2_writer_contract (s : List Filing) (d : FilingData) :
    ((d.filing_date = none ∨ d.cik = none ∨ d.cik = some "") →
      insert_if_new s d = (false, s)) ∧
    (∀ c dt, d.cik = some c → d.filing_date = some dt → hasKey s c dt = true →
      insert_if_new s d = (false, s)) ∧
    (∀ c dt, d.cik = some c → c ≠ "" → d.filing_date = some dt →
      hasKey s c dt = false →
      insert_if_new s d = (true, s ++ [newRow c dt d])) := by
  refine ⟨?_, ?_, ?_⟩
  · rintro (h | h | h)
    · exact insert_if_new_none s d (Or.inl h)
    · exact insert_if_new_none s d (Or.inr h)
    · cases hfd : d.filing_date with
      | none => exact insert_if_new_none s d (Or.inl hfd)
      | some dt => rw [insert_if_new_some s d h hfd, if_pos rfl]
  · intro c dt hc hfd hk
    exact insert_false_of_hasKey s d hc hfd hk
  · intro c dt hc hne hfd hk
    rw [insert_if_new_some s d hc hfd, if_neg hne, hk]
    simp

/-- Witness for `claim_C2_writer_contract`: a fresh record with both identity
fields is staged as the unique new row. -/
theorem claim_C2_writer_contract_witness :
    insert_if_new []
      { cik := some "0001234567", filing_date := some ⟨2024, 1, 15⟩,
        company_name := "Example Corp", raise_amount := "5000000",
        raw_xml_url := "u" } =
      (true, [newRow "0001234567" ⟨2024, 1, 15⟩
        { cik := some "0001234567", filing_date := some ⟨2024, 1, 15⟩,
          company_name := "Example Corp", raise_amount := "5000000",
          raw_xml_url := "u" }]) :=
  (claim_C2_writer_contract [] _).2.2 "0001234567" ⟨2024, 1, 15⟩ rfl
    (by decide) rfl rfl

/-- Claim C3 (confirmed): starting from any storage satisfying the
`(cik, filing_date)` uniqueness invariant, every state reachable by any
sequence of writer/orchestrator operations (bare insert, single-date run,
backfill) still satisfies it. -/
theorem claim_C3_uniqueness_invariant (ops : List StoreOp) (s0 : List Filing)
    (h0 : UniqueStore s0) : UniqueStore (ops.foldl applyOp s0) := by
  induction ops generalizing s0 with
  | nil => exact h0
  | cons op rest ih => exact ih (applyOp s0 op) (applyOp_unique s0 op h0)

/-- Witness for `claim_C3_uniqueness_invariant`: a happy-path daily run
followed by a bare insert, from empty storage. -/
theorem claim_C3_uniqueness_invariant_witness :
    UniqueStore ([StoreOp.daily cw 2024 1 "20240115",
      StoreOp.write freshData].foldl applyOp []) :=
  claim_C3_uniqueness_invariant _ [] (List.Pairwise.nil)

/-- Claim C7, counterexample: an index line whose filing-type field is the
amendment code `D/A` (and whose path satisfies the parser's pattern) produces
no `IndexEntry`: the source compares the field with `== 'D'` exactly. -/
theorem claim_C7_counterexample :
    parse_index_lines (hdr11 ++ [amendmentLine]) = [] := by rfl

/-- Claim C7 as amended: only lines whose filing-type field equals `D`
exactly are retained; a line with any other type code — in particular the
amendment variant `D/A` — is skipped by the parser. -/
theorem claim_C7_amended (line p0 p1 t p3 p4 : String)
    (hsplit : splitFields line = [p0, p1, t, p3, p4]) (ht : t ≠ "D") :
    parseIdxLine line = none := by
  simp [parseIdxLine, hsplit, parsePartsD, ht]

/-- Witness for `claim_C7_amended`: the amendment line is skipped. -/
theorem claim_C7_amended_witness : parseIdxLine amendmentLine = none :=
  claim_C7_amended amendmentLine "1234567" "Example Corp" "D/A" "20240115"
    "Archives/edgar/data/1234567/0001437749-24-001122/primary_doc.xml" rfl
    (by decide)

/-- Claim C4 (confirmed): for a fixed upstream world, a successful
single-date run is idempotent: a second run from the resulting storage leaves
storage unchanged and every insert attempted during it reports `false`
("not inserted"). -/
theorem claim_C4_idempotent (w : World) (s : List Filing) (y q : Nat)
    (ds : String) (r : DailyRun) (h : process_daily w s y q ds = .ok r) :
    ∃ r2, process_daily w r.storage y q ds = .ok r2 ∧ r2.storage = r.storage ∧
      ∀ b ∈ r2.attempts, b = false := by
  cases hresp : w.idxResp (get_daily_idx_url y q ds) with
  | mk st body =>
    by_cases hst : st = 200
    · subst hst
      rw [process_daily_200 hresp s] at h
      have H1 := dailyLoop_ok_downloads w (parse_index_lines (splitlines body)) s r h
      have HK := dailyLoop_hasKey w (parse_index_lines (splitlines body)) s r h
      have H2 : ∀ e ∈ parse_index_lines (splitlines body), ∀ d,
          download_and_parse_xml w e.cik e.accession e.filename = .ok (some d) →
          insert_if_new r.storage d = (false, r.storage) := by
        intro e he d hdl
        cases hfd : d.filing_date with
        | none => exact insert_if_new_none _ d (Or.inl hfd)
        | some dt =>
          cases hcik : d.cik with
          | none => exact insert_if_new_none _ d (Or.inr hcik)
          | some c =>
            by_cases hc : c = ""
            · rw [insert_if_new_some _ d hcik hfd, if_pos hc]
            · exact insert_false_of_hasKey _ d hcik hfd
                (HK e he d c dt hdl hcik hc hfd)
      obtain ⟨r2, hr2, hS, hb⟩ :=
        dailyLoop_second w (parse_index_lines (splitlines body)) r.storage H1 H2
      exact ⟨r2, by rw [process_daily_200 hresp r.storage]; exact hr2, hS, hb⟩
    · rw [process_daily_not200 hresp hst s] at h
      exact ⟨⟨r.storage, [], []⟩, process_daily_not200 hresp hst r.storage,
        rfl, by simp⟩

/-- Witness for `claim_C4_idempotent`: re-running the happy-path date over
the storage it produced stages nothing and reports no insertion. -/
theorem claim_C4_idempotent_witness :
    ∃ r2, process_daily cw [exampleFiling] 2024 1 "20240115" = .ok r2 ∧
      r2.storage = [exampleFiling] ∧ ∀ b ∈ r2.attempts, b = false :=
  claim_C4_idempotent cw [] 2024 1 "20240115"
    ⟨[exampleFiling], [true],
      [docUrl "0001234567" "0001437749-24-001122" "primary_doc.xml"]⟩ rfl

/-- Claim C5, counterexample: a well-formed document whose only amount field
is a total-offering-amount of `5000000` parses to a record whose raise amount
is the empty string — not `5000000` and not `Unknown`.  The source reads only
`minimumInvestment` and defaults to `''`; no fallback chain exists. -/
theorem claim_C5_counterexample :
    parse_form_d_xml (some totalOnlyDoc) "u" =
      .ok (some { filing_date := some ⟨2024, 1, 15⟩,
                  company_name := "Example Corp", raise_amount := "",
                  raw_xml_url := "u" }) ∧
    ("" : String) ≠ "5000000" ∧ ("" : String) ≠ "Unknown" :=
  ⟨rfl, by decide, by decide⟩

/-- Claim C5 as amended: the raise amount is the stripped text of the
`minimumInvestment` element when that element is present, and the empty
string when it is absent; the total-offering-amount field is never consulted
and the literal `Unknown` is never produced. -/
theorem claim_C5_amended (root : Element) (url : String) (fd : Option Date)
    (cn : String) (hfd : acceptanceDate root = .ok fd)
    (hcn : elemText root "companyName" = .ok cn) :
    (findDesc root "minimumInvestment" = none →
      parse_form_d_xml (some root) url =
        .ok (some { filing_date := fd, company_name := cn, raise_amount := "",
                    raw_xml_url := url })) ∧
    (∀ el t, findDesc root "minimumInvestment" = some el → el.text = some t →
      parse_form_d_xml (some root) url =
        .ok (some { filing_date := fd, company_name := cn,
                    raise_amount := pyStrip t, raw_xml_url := url })) := by
  constructor
  · intro hmin
    have hra : elemText root "minimumInvestment" = .ok "" := by
      rw [elemText, hmin]
    simp [parse_form_d_xml, bind, Except.bind, pure, Except.pure, hfd, hcn, hra]
  · intro el t hel htx
    have hra : elemText root "minimumInvestment" = .ok (pyStrip t) := by
      rw [elemText, hel]
      simp [htx]
    simp [parse_form_d_xml, bind, Except.bind, pure, Except.pure, hfd, hcn, hra]

/-- Witness for `claim_C5_amended`: the happy-path document carries
`minimumInvestment = 5000000`. -/
theorem claim_C5_amended_witness :
    parse_form_d_xml (some goodDoc) "u" =
      .ok (some { filing_date := some ⟨2024, 1, 15⟩,
                  company_name := "Example Corp",
                  raise_amount := pyStrip "5000000", raw_xml_url := "u" }) :=
  (claim_C5_amended goodDoc "u" (some ⟨2024, 1, 15⟩) "Example Corp" rfl rfl).2
    (.mk (nsTag "minimumInvestment") (some "5000000") []) "5000000" rfl rfl

/-- Claim C6, counterexample: for a document lacking the acceptance
timestamp, the parsed record's filing date is `None` — the index entry's
compact date `20240115` is never consulted — and the record is therefore
rejected by the writer: the day's run attempts one insert, reports `false`,
and stores nothing. -/
theorem claim_C6_counterexample :
    download_and_parse_xml w6 "0001234567" "0001437749-24-001122"
        "primary_doc.xml" =
      .ok (some { cik := some "0001234567", filing_date := none,
                  company_name := "Example Corp", raise_amount := "5000000",
                  raw_xml_url := docUrl "0001234567" "0001437749-24-001122"
                    "primary_doc.xml" }) ∧
    process_daily w6 [] 2024 1 "20240115" =
      .ok ⟨[], [false],
        [docUrl "0001234567" "0001437749-24-001122" "primary_doc.xml"]⟩ :=
  ⟨rfl, rfl⟩

/-- Claim C6 as amended: when the acceptance timestamp is present (and its
first 10 characters parse as a date) the record's filing date is that parsed
date; when the element is absent the filing date is `None` and the record is
rejected by the writer — there is no fallback to the index entry's
filing-date field. -/
theorem claim_C6_amended (root : Element) (url : String) (cn ra : String)
    (hcn : elemText root "companyName" = .ok cn)
    (hra : elemText root "minimumInvestment" = .ok ra) :
    (∀ el t dt, findDesc root "acceptanceDateTime" = some el →
      el.text = some t → parseYmd (t.take 10) = some dt →
      parse_form_d_xml (some root) url =
        .ok (some { filing_date := some dt, company_name := cn,
                    raise_amount := ra, raw_xml_url := url })) ∧
    (findDesc root "acceptanceDateTime" = none →
      parse_form_d_xml (some root) url =
        .ok (some { filing_date := none, company_name := cn,
                    raise_amount := ra, raw_xml_url := url }) ∧
      ∀ (s : List Filing) (d : FilingData), d.filing_date = none →
        insert_if_new s d = (false, s)) := by
  constructor
  · intro el t dt hel htx hp
    have hne : ¬ (t.take 10 = "") := by
      intro h0
      rw [h0] at hp
      have hnone : parseYmd "" = none := rfl
      rw [hnone] at hp
      exact Option.noConfusion hp
    have hfd : acceptanceDate root = .ok (some dt) := by
      rw [acceptanceDate, hel]
      simp [htx, hne, hp]
    simp [parse_form_d_xml, bind, Except.bind, pure, Except.pure, hfd, hcn, hra]
  · intro hel
    have hfd : acceptanceDate root = .ok none := by rw [acceptanceDate, hel]
    refine ⟨by simp [parse_form_d_xml, bind, Except.bind, pure, Except.pure,
      hfd, hcn, hra], ?_⟩
    intro s d hd
    exact insert_if_new_none s d (Or.inl hd)

/-- Witness for `claim_C6_amended`: the happy-path document's timestamp
`2024-01-15T10:00:00` gives the date 2024-01-15. -/
theorem claim_C6_amended_witness :
    parse_form_d_xml (some goodDoc) "u" =
      .ok (some { filing_date := some ⟨2024, 1, 15⟩,
                  company_name := "Example Corp", raise_amount := "5000000",
                  raw_xml_url := "u" }) :=
  (claim_C6_amended goodDoc "u" "Example Corp" "5000000" rfl rfl).1
    (.mk (nsTag "acceptanceDateTime") (some "2024-01-15T10:00:00") [])
    "2024-01-15T10:00:00" ⟨2024, 1, 15⟩ rfl rfl rfl

/-- Claim C8, counterexample: in the five-date backfill window where date 3's
document raises, the whole-window run commits nothing — in particular the
valid insertions of dates 1 and 2 (which a two-date run does commit) are
rolled back, contradicting "dates 1, 2, 4, 5 still commit their valid
insertions".  The source wraps the entire window in one session with a single
commit after the loop and a rollback in the handler. -/
theorem claim_C8_counterexample :
    historical_run w8 [] dates5 = [] ∧
    runDays w8 (dates5.take 2) [] = .ok [filingFor "1", filingFor "2"] :=
  ⟨rfl, rfl⟩

/-- Claim C8 as amended: the backfill window is one unit of work.  If the
dates processed so far succeeded and the next date's run raises, the whole
window's staged inserts are rolled back and the remaining dates are skipped:
durable storage is exactly the pre-run storage. -/
theorem claim_C8_amended (w : World) (s0 : List Filing)
    (ds1 : List (Nat × Nat × String)) (y q : Nat) (ds : String)
    (ds2 : List (Nat × Nat × String)) (s1 : List Filing) (e : PyErr)
    (h1 : runDays w ds1 s0 = .ok s1)
    (h2 : process_daily w s1 y q ds = .error e) :
    historical_run w s0 (ds1 ++ (y, q, ds) :: ds2) = s0 := by
  have hrd : runDays w (ds1 ++ (y, q, ds) :: ds2) s0 = .error e := by
    rw [runDays_append w ds1 ((y, q, ds) :: ds2) s0, h1]
    show runDays w ((y, q, ds) :: ds2) s1 = .error e
    rw [runDays, h2]
  rw [historical_run, hrd]

/-- Witness for `claim_C8_amended`: the concrete five-date scenario, split
around the failing third date. -/
theorem claim_C8_amended_witness :
    historical_run w8 []
      (dates5.take 2 ++ (2024, 1, "20240113") :: dates5.drop 3) = [] :=
  claim_C8_amended w8 [] (dates5.take 2) 2024 1 "20240113" (dates5.drop 3)
    [filingFor "1", filingFor "2"] .typeError rfl rfl

/-- Claim C9, counterexample: an HTML block page served with status 200 is
not detected: the run completes normally with zero entries, zero document
fetches and zero inserts — the very same observable outcome as a day whose
index lists no filings.  No distinct Blocked error exists and the date's run
is not aborted. -/
theorem claim_C9_counterexample :
    process_daily wHtml [] 2024 1 "20240115" = .ok ⟨[], [], []⟩ ∧
    process_daily wEmpty [] 2024 1 "20240115" = .ok ⟨[], [], []⟩ ∧
    process_daily wHtml [] 2024 1 "20240115" =
      process_daily wEmpty [] 2024 1 "20240115" :=
  ⟨rfl, rfl, rfl⟩

/-- Claim C9 as amended: any 200-status index response whose body yields no
parsed entries — markup included, since an HTML body never survives the
pipe-field filter — makes the run complete normally with unchanged storage,
no insert attempts and zero document fetches, indistinguishable from a
no-filings day. -/
theorem claim_C9_amended (w : World) (s : List Filing) (y q : Nat)
    (ds body : String)
    (hresp : w.idxResp (get_daily_idx_url y q ds) = (200, body))
    (hnone : parse_index_lines (splitlines body) = []) :
    process_daily w s y q ds = .ok ⟨s, [], []⟩ := by
  rw [process_daily_200 hresp s, hnone]
  rfl

/-- Witness for `claim_C9_amended`: the concrete HTML block page. -/
theorem claim_C9_amended_witness :
    process_daily wHtml [] 2024 1 "20240115" = .ok ⟨[], [], []⟩ :=
  claim_C9_amended wHtml [] 2024 1 "20240115"
    "<html><body>Request Rate Threshold Exceeded</body></html>" rfl rfl

/-- Claim C10 (confirmed): `parse_form_d_xml` catches only XML
well-formedness errors.  A well-formed document whose `acceptanceDateTime`
element is empty (`text = None`) raises `TypeError` from the slice, and one
whose timestamp's first 10 characters are not a valid date raises
`ValueError` from `strptime`; the exception propagates out of the entry loop,
aborts the date's run, and in a backfill rolls the whole unit of work back to
the pre-run storage instead of skipping the entry. -/
theorem claim_C10_uncaught_date_crash :
    parse_form_d_xml (some emptyAcceptDoc) "u" = .error .typeError ∧
    parse_form_d_xml (some badDateDoc) "u" = .error .valueError ∧
    process_daily w10 [] 2024 1 "20240115" = .error .typeError ∧
    historical_run w10 [exampleFiling] [(2024, 1, "20240115")] =
      [exampleFiling] :=
  ⟨rfl, rfl, rfl, rfl⟩

end FormD
